import Mathlib

/-!
Verification development for the concert setlist analysis module
(`concert_analysis.py`).  The single class `JasonIsbellConcertData` holds a
pandas DataFrame with columns `Date`, `Venue`, `Song` plus derived columns
`clean_song`, `is_cover`, `is_special`, and exposes aggregation queries.

Shallow embedding choices, mirrored from the source:
* A DataFrame row is a `Row` with a calendar date (modelled as a natural
  number ordered chronologically, e.g. 20230101), a venue and a raw song text.
  The dataset is the ordered list of rows.
* Derived columns are total functions of the raw song text, computed exactly
  as `_process_songs` does: `cleanSong` applies the regex substitution
  `\(.*\)` -> empty string (re.sub semantics: leftmost match, greedy `.*`
  that does not cross a newline character) followed by `str.strip`;
  `isCover` / `isSpecial` are case-insensitive containment tests.
* pandas `groupby` enumerates keys in ascending lexicographic order;
  `Series.unique` keeps first-appearance order (`uniqueFirst`);
  `sort_values` is modelled by insertion sort over the relevant relation
  (a deterministic comparison sort; the claims proved below never depend
  on the order of tied elements).
* Floating point results of `.round(1)` are modelled exactly over `ℚ` with
  numpy's round-half-to-even (`roundHalfEven`, `round1`).
* `get_stats` formats `df['Date'].min()/.max()` with `strftime`; on an empty
  frame both are `NaT` and `strftime` raises `ValueError`.  The embedding
  returns `Except ConcertError Stats`, with `ConcertError.valueError` for
  that raise; the date range is carried as the pair of extremal dates.
* `Series.str.contains` interprets its argument as a regular expression
  (`re.search`, `re.IGNORECASE`).  The fragment of regular expressions made
  of literal characters, escaped punctuation and `.` is modelled by
  `parsePat`/`reSearch`; `find_song_appearances` returns `none` for a
  pattern outside that fragment (which covers, in particular, the patterns
  on which `re` raises, such as a lone `(`).
-/

namespace ConcertAnalysis

/-- Deduplication keeping the first occurrence of each element, with an
accumulator of already seen elements; this is the order `pandas.unique`
produces. -/
def uniqueAux {α : Type} [DecidableEq α] (seen : List α) : List α → List α
  | [] => []
  | a :: t => if a ∈ seen then uniqueAux seen t else a :: uniqueAux (a :: seen) t

/-- Distinct elements of a list in first-appearance order (`Series.unique`);
its length is `Series.nunique`. -/
def uniqueFirst {α : Type} [DecidableEq α] (l : List α) : List α := uniqueAux [] l

/-- Does `pat` match at the very start of `hay`? -/
def leadMatch : List Char → List Char → Bool
  | [], _ => true
  | _ :: _, [] => false
  | a :: as, b :: bs => a == b && leadMatch as bs

/-- Substring containment on character lists: `pat` occurs contiguously
somewhere in the list. -/
def containsSub (pat : List Char) : List Char → Bool
  | [] => leadMatch pat []
  | c :: t => leadMatch pat (c :: t) || containsSub pat t

/-- Lower-case every character (`str.lower`, `case=False` comparisons). -/
def lowerChars (l : List Char) : List Char := l.map Char.toLower

/-- Case-insensitive substring containment used for `is_cover`/`is_special`
and for the claimed (literal, non-regex) reading of `str.contains`. -/
def icontains (hay pat : String) : Bool :=
  containsSub (lowerChars pat.data) (lowerChars hay.data)

/-- Index of the last `)` in the list, if any. -/
def lastClose : List Char → Option ℕ
  | [] => none
  | c :: rest =>
    match lastClose rest with
    | some j => some (j + 1)
    | none => if c = ')' then some 0 else none

/-- Index of the first `(` in the list, if any. -/
def firstOpen : List Char → Option ℕ
  | [] => none
  | c :: rest => if c = '(' then some 0 else (firstOpen rest).map (· + 1)

/-- Fuel-indexed scanner for `re.sub(r'\(.*\)', '', s)`: at a `(` the greedy
`.*` runs to the last `)` that is reachable without crossing a newline
(`.` does not match `\n`); the whole match is dropped and scanning resumes
after it; a `(` with no such `)` is kept.  The fuel only makes the recursion
structural; `subParen` supplies enough of it. -/
def subParenAux : ℕ → List Char → List Char
  | _, [] => []
  | 0, l => l
  | fuel + 1, c :: rest =>
    if c = '(' then
      match lastClose (rest.takeWhile (fun x => !(x == '\n'))) with
      | some j => subParenAux fuel (rest.drop (j + 1))
      | none => c :: subParenAux fuel rest
    else c :: subParenAux fuel rest

/-- Result of `re.sub(r'\(.*\)', '', s)` on the characters of `s`. -/
def subParen (l : List Char) : List Char := subParenAux l.length l

/-- Whitespace test of `str.strip` (space, tab, newline, carriage return,
vertical tab, form feed). -/
def isWsChar (c : Char) : Bool :=
  c.val = 32 || c.val = 9 || c.val = 10 || c.val = 13 || c.val = 11 || c.val = 12

/-- Remove leading and trailing whitespace (`str.strip`). -/
def stripChars (l : List Char) : List Char :=
  ((l.dropWhile isWsChar).reverse.dropWhile isWsChar).reverse

/-- Derived column `clean_song`:
`df['Song'].str.replace(r'\(.*\)', '', regex=True).str.strip()`. -/
def cleanSong (s : String) : String := String.mk (stripChars (subParen s.data))

/-- Derived column `is_cover`: the raw song text contains `cover`
case-insensitively. -/
def isCover (s : String) : Bool := icontains s "cover"

/-- Derived column `is_special`: the raw song text contains one of the fixed
keywords case-insensitively (the regex alternation of the source is an
alternation of literal strings). -/
def isSpecial (s : String) : Bool :=
  icontains s "first time" || icontains s "dedicated" ||
    icontains s "with Sadler" || icontains s "bluegrass"

/-- Round to the nearest integer, ties to the even integer; this is the
rounding used by numpy/pandas `.round`. -/
def roundHalfEven (q : ℚ) : ℤ :=
  if Int.fract q < 1 / 2 then ⌊q⌋
  else if 1 / 2 < Int.fract q then ⌊q⌋ + 1
  else if ⌊q⌋ % 2 = 0 then ⌊q⌋ else ⌊q⌋ + 1

/-- Round to one decimal place (`.round(1)`). -/
def round1 (q : ℚ) : ℚ := (roundHalfEven (10 * q) : ℚ) / 10

/-- One DataFrame row: parsed date (naturals ordered chronologically),
venue and raw song text.  The derived columns are recovered by `cleanSong`,
`isCover` and `isSpecial`. -/
structure Row where
  date : ℕ
  venue : String
  song : String
deriving DecidableEq

/-- Errors of the embedded operations.  `valueError` models the `ValueError`
raised by `NaT.strftime` when `get_stats` formats the date range of an
empty dataset. -/
inductive ConcertError where
  | valueError
deriving DecidableEq

/-- Record returned by `get_stats`; `first_show`/`last_show` carry the
extremal dates of `date_range`. -/
structure Stats where
  total_shows : ℕ
  total_songs : ℕ
  unique_songs : ℕ
  total_venues : ℕ
  first_show : ℕ
  last_show : ℕ
  covers : ℕ
  special_performances : ℕ
deriving DecidableEq

instance {ε α : Type} [DecidableEq ε] [DecidableEq α] : DecidableEq (Except ε α) := fun x y =>
  match x, y with
  | .ok a, .ok b =>
    if h : a = b then isTrue (by rw [h]) else isFalse (fun hc => h (Except.ok.inj hc))
  | .error e, .error f =>
    if h : e = f then isTrue (by rw [h]) else isFalse (fun hc => h (Except.error.inj hc))
  | .ok _, .error _ => isFalse (fun hc => Except.noConfusion hc)
  | .error _, .ok _ => isFalse (fun hc => Except.noConfusion hc)

/-- Minimum of a list of dates (`Series.min`), `none` on an empty series
(pandas `NaT`). -/
def optMin : List ℕ → Option ℕ
  | [] => none
  | a :: t =>
    some (match optMin t with
      | none => a
      | some m => Nat.min a m)

/-- Maximum of a list of dates (`Series.max`), `none` on an empty series. -/
def optMax : List ℕ → Option ℕ
  | [] => none
  | a :: t =>
    some (match optMax t with
      | none => a
      | some m => Nat.max a m)

/-- Number of distinct dates, `self.df['Date'].nunique()`. -/
def totalShows (rows : List Row) : ℕ := (uniqueFirst (rows.map Row.date)).length

/-- Embedding of `get_stats`.  Every count is computed as in the source;
formatting the date range of an empty frame raises (`NaT.strftime`), hence
the error on the empty dataset. -/
def get_stats (rows : List Row) : Except ConcertError Stats :=
  match optMin (rows.map Row.date), optMax (rows.map Row.date) with
  | some lo, some hi =>
    .ok
      { total_shows := totalShows rows
        total_songs := rows.length
        unique_songs := (uniqueFirst (rows.map (fun r => cleanSong r.song))).length
        total_venues := (uniqueFirst (rows.map Row.venue)).length
        first_show := lo
        last_show := hi
        covers := rows.countP (fun r => isCover r.song)
        special_performances := rows.countP (fun r => isSpecial r.song) }
  | _, _ => .error .valueError

/-- Lexicographic comparison of character lists by code point, the order in
which `groupby` enumerates string keys. -/
def charListLe : List Char → List Char → Bool
  | [], _ => true
  | _ :: _, [] => false
  | a :: as, b :: bs => if a = b then charListLe as bs else decide (a.val < b.val)

/-- String order used for `groupby` key enumeration. -/
def strLe (s t : String) : Prop := charListLe s.data t.data = true

instance : DecidableRel strLe := fun s t =>
  inferInstanceAs (Decidable (charListLe s.data t.data = true))

/-- Entry of the frame built by `get_top_songs` before truncation:
`clean_song`, `play_count`, `percentage`. -/
structure TopSong where
  clean_song : String
  play_count : ℕ
  percentage : ℚ
deriving DecidableEq

/-- Ranking order of `sort_values('play_count', ascending=False)`. -/
def topSongGe (a b : TopSong) : Prop := b.play_count ≤ a.play_count

instance : DecidableRel topSongGe := fun a b =>
  inferInstanceAs (Decidable (b.play_count ≤ a.play_count))

instance : IsTotal TopSong topSongGe :=
  ⟨fun a b => show b.play_count ≤ a.play_count ∨ a.play_count ≤ b.play_count from
    (Nat.le_total b.play_count a.play_count)⟩

instance : IsTrans TopSong topSongGe :=
  ⟨fun _ _ _ h1 h2 => Nat.le_trans h2 h1⟩

/-- `self.df.groupby('clean_song').size()`: each distinct `clean_song` key in
ascending order, with the number of rows carrying it. -/
def songCounts (rows : List Row) : List (String × ℕ) :=
  (List.insertionSort strLe (uniqueFirst (rows.map (fun r => cleanSong r.song)))).map
    (fun c => (c, rows.countP (fun r => cleanSong r.song == c)))

/-- Full ranking built by `get_top_songs` before `head(n)`: the per-song
row counts with `percentage = (play_count / df['Date'].nunique() * 100)
.round(1)`, sorted by descending `play_count`. -/
def rankedSongs (rows : List Row) : List TopSong :=
  List.insertionSort topSongGe
    ((songCounts rows).map
      (fun p => ⟨p.1, p.2, round1 ((p.2 : ℚ) / (totalShows rows : ℚ) * 100)⟩))

/-- `DataFrame.head(n)` (`iloc[:n]`): the first `n` entries for `n ≥ 0`, and
all but the last `|n|` entries for negative `n`.  No argument validation is
performed by the source. -/
def dfHead {α : Type} (n : ℤ) (l : List α) : List α :=
  if 0 ≤ n then l.take n.toNat else l.take (l.length - n.natAbs)

/-- Embedding of `get_top_songs(n)`. -/
def get_top_songs (rows : List Row) (n : ℤ) : List TopSong := dfHead n (rankedSongs rows)

/-- Embedding of `get_top_songs()` with the default argument `n = 10`. -/
def get_top_songs_default (rows : List Row) : List TopSong := get_top_songs rows 10

/-- Embedding of `get_show_setlist(date)`: raw songs of the rows with that
date, in original row order. -/
def get_show_setlist (rows : List Row) (date : ℕ) : List String :=
  (rows.filter (fun r => r.date == date)).map Row.song

/-- Embedding of `get_rare_songs()`: clean songs with row count one, then the
deduplicated raw songs of the rows carrying them. -/
def get_rare_songs (rows : List Row) : List String :=
  uniqueFirst
    ((rows.filter
        (fun r => (((songCounts rows).filter (fun p => p.2 == 1)).map Prod.fst).contains
          (cleanSong r.song))).map
      Row.song)

/-- Entry of the frame built by `get_venue_stats`. -/
structure VenueStat where
  venue : String
  shows : ℕ
  total_songs : ℕ
  avg_songs_per_show : ℚ
deriving DecidableEq

/-- Order of `sort_values('shows', ascending=False)`. -/
def venueGe (a b : VenueStat) : Prop := b.shows ≤ a.shows

instance : DecidableRel venueGe := fun a b =>
  inferInstanceAs (Decidable (b.shows ≤ a.shows))

instance : IsTotal VenueStat venueGe :=
  ⟨fun a b => show b.shows ≤ a.shows ∨ a.shows ≤ b.shows from (Nat.le_total b.shows a.shows)⟩

instance : IsTrans VenueStat venueGe :=
  ⟨fun _ _ _ h1 h2 => Nat.le_trans h2 h1⟩

/-- Embedding of `get_venue_stats()`: per venue, the distinct-date count
(`'Date': 'nunique'`), the row count (`'Song': 'count'`), and
`avg_songs_per_show = (total_songs / shows).round(1)`, sorted by descending
`shows`. -/
def get_venue_stats (rows : List Row) : List VenueStat :=
  List.insertionSort venueGe
    ((List.insertionSort strLe (uniqueFirst (rows.map Row.venue))).map
      (fun v =>
        ⟨v, (uniqueFirst ((rows.filter (fun r => r.venue == v)).map Row.date)).length,
          (rows.filter (fun r => r.venue == v)).length,
          round1
            (((rows.filter (fun r => r.venue == v)).length : ℚ) /
              ((uniqueFirst ((rows.filter (fun r => r.venue == v)).map Row.date)).length : ℚ))⟩))

/-- Token of the modelled fragment of Python regular expressions: a literal
character or the `.` wildcard. -/
inductive RTok where
  | lit (c : Char)
  | dot
deriving DecidableEq

/-- Characters that are regex metacharacters (outside the `.`-wildcard the
fragment models). -/
def isRegexMeta (c : Char) : Bool :=
  c == '(' || c == ')' || c == '[' || c == ']' || c == '{' || c == '}' ||
    c == '*' || c == '+' || c == '?' || c == '|' || c == '^' || c == '$' || c == '\\'

/-- Parse a pattern of the modelled regex fragment: literal characters,
escaped punctuation and `.`.  Everything else -- including the patterns on
which `re.compile` raises, such as a lone `(` -- is outside the model and
yields `none`. -/
def parsePat : List Char → Option (List RTok)
  | [] => some []
  | '\\' :: c :: t =>
    if c.isAlphanum then none else (parsePat t).map (fun ts => RTok.lit c :: ts)
  | '\\' :: [] => none
  | '.' :: t => (parsePat t).map (fun ts => RTok.dot :: ts)
  | c :: t => if isRegexMeta c then none else (parsePat t).map (fun ts => RTok.lit c :: ts)

/-- Match the token list against a prefix of the characters; `.` matches any
character except a newline. -/
def matchToks : List RTok → List Char → Bool
  | [], _ => true
  | _ :: _, [] => false
  | .lit c :: ts, a :: as => a == c && matchToks ts as
  | .dot :: ts, a :: as => !(a == '\n') && matchToks ts as

/-- `re.search`: the token list matches at some position of the character
list. -/
def reSearch (toks : List RTok) : List Char → Bool
  | [] => matchToks toks []
  | a :: as => matchToks toks (a :: as) || reSearch toks as

/-- Ascending date order of `sort_values('Date')`. -/
def rowDateLe (a b : Row) : Prop := a.date ≤ b.date

instance : DecidableRel rowDateLe := fun a b =>
  inferInstanceAs (Decidable (a.date ≤ b.date))

instance : IsTotal Row rowDateLe :=
  ⟨fun a b => show a.date ≤ b.date ∨ b.date ≤ a.date from (Nat.le_total a.date b.date)⟩

instance : IsTrans Row rowDateLe :=
  ⟨fun _ _ _ h1 h2 => Nat.le_trans h1 h2⟩

/-- Embedding of `find_song_appearances(song_name)`:
`df['clean_song'].str.contains(song_name, case=False)` interprets the
argument as a case-insensitive regular expression; matching rows are
returned sorted ascending by date.  Patterns outside the modelled fragment
give `none`. -/
def find_song_appearances (rows : List Row) (pat : String) : Option (List Row) :=
  (parsePat (lowerChars pat.data)).map
    (fun toks =>
      List.insertionSort rowDateLe
        (rows.filter (fun r => reSearch toks (lowerChars (cleanSong r.song).data))))

/-- Entry of the `shows` list of `export_for_visualization`: for each
distinct date in first-appearance order, the venue of the first row of that
date, the raw songs in row order and their count. -/
structure ShowEntry where
  date : ℕ
  venue : String
  songs : List String
  song_count : ℕ
deriving DecidableEq

/-- The `shows` list of `export_for_visualization`. -/
def exportShows (rows : List Row) : List ShowEntry :=
  (uniqueFirst (rows.map Row.date)).map
    (fun d =>
      ⟨d, (((rows.filter (fun r => r.date == d)).head?).map Row.venue).getD "",
        (rows.filter (fun r => r.date == d)).map Row.song,
        (rows.filter (fun r => r.date == d)).length⟩)

/-- Document built by `export_for_visualization`. -/
structure VizExport where
  shows : List ShowEntry
  song_frequency : List TopSong
  venue_stats : List VenueStat
  rare_songs : List String
  stats : Stats
deriving DecidableEq

/-- Embedding of `export_for_visualization()`; it evaluates `get_stats`, so
it propagates the error of the empty dataset. -/
def export_for_visualization (rows : List Row) : Except ConcertError VizExport :=
  (get_stats rows).map
    (fun st =>
      ⟨exportShows rows, get_top_songs rows 20, get_venue_stats rows,
        get_rare_songs rows, st⟩)

/-- Modelled from the claim wording of C1 for comparison with the source:
the number of distinct dates (shows) at which a clean song appears in at
least one row. -/
def distinctShowDates (rows : List Row) (c : String) : ℕ :=
  (uniqueFirst ((rows.filter (fun r => cleanSong r.song == c)).map Row.date)).length

/-- Modelled from the claim wording of C6 for comparison with the source:
rows whose `clean_song` contains the argument case-insensitively as a plain
substring, sorted ascending by date. -/
def claimedFindSongAppearances (rows : List Row) (pat : String) : List Row :=
  List.insertionSort rowDateLe (rows.filter (fun r => icontains (cleanSong r.song) pat))

/-- Modelled from the claim wording of C10 for comparison with the source:
delete the single span from the first `(` to the last `)` when a `(`
precedes some `)`. -/
def claimedParenDelete (l : List Char) : List Char :=
  match firstOpen l, lastClose l with
  | some i, some j => if i < j then l.take i ++ l.drop (j + 1) else l
  | _, _ => l

/-- Does the list contain a `(` that is followed, strictly later, by a `)`?
Equivalently, some `)` occurs after the first `(`. -/
def containsOpenClose (l : List Char) : Bool :=
  ((l.dropWhile (fun c => !(c == '('))).drop 1).contains ')'

/-- The three-row dataset of the worked example in the specification. -/
def exampleRows : List Row :=
  [⟨20230101, "VenueA", "Song1"⟩, ⟨20230101, "VenueA", "Song2 (cover)"⟩,
    ⟨20230601, "VenueB", "Song1"⟩]

/-- A dataset in which one song is played twice at the same show (same
date): the quantity `groupby('clean_song').size()` counts rows, not
distinct dates. -/
def repeatRows : List Row :=
  [⟨20230101, "VenueA", "Song1"⟩, ⟨20230101, "VenueA", "Song1"⟩]

/-! ### Generic lemmas about the list helpers -/

theorem mem_uniqueAux {α : Type} [DecidableEq α] (seen l : List α) (x : α) :
    x ∈ uniqueAux seen l ↔ x ∈ l ∧ x ∉ seen := by
  induction l generalizing seen with
  | nil => simp [uniqueAux]
  | cons a t ih =>
    by_cases h : a ∈ seen
    · rw [uniqueAux, if_pos h, ih]
      constructor
      · rintro ⟨hx, hs⟩
        exact ⟨List.mem_cons_of_mem a hx, hs⟩
      · rintro ⟨hx, hs⟩
        rcases List.mem_cons.mp hx with rfl | hx
        · exact absurd h hs
        · exact ⟨hx, hs⟩
    · rw [uniqueAux, if_neg h]
      rw [List.mem_cons]
      constructor
      · rintro (rfl | hx)
        · exact ⟨List.mem_cons_self x t, h⟩
        · obtain ⟨hx, hs⟩ := (ih (a :: seen)).mp hx
          refine ⟨List.mem_cons_of_mem a hx, fun hc => hs (List.mem_cons_of_mem a hc)⟩
      · rintro ⟨hx, hs⟩
        rcases List.mem_cons.mp hx with rfl | hx
        · exact Or.inl rfl
        · by_cases hxa : x = a
          · exact Or.inl hxa
          · refine Or.inr ((ih (a :: seen)).mpr ⟨hx, fun hc => ?_⟩)
            rcases List.mem_cons.mp hc with h1 | h1
            · exact hxa h1
            · exact hs h1

theorem mem_uniqueFirst {α : Type} [DecidableEq α] (l : List α) (x : α) :
    x ∈ uniqueFirst l ↔ x ∈ l := by
  rw [uniqueFirst, mem_uniqueAux]
  simp

theorem nodup_uniqueAux {α : Type} [DecidableEq α] (seen l : List α) :
    (uniqueAux seen l).Nodup := by
  induction l generalizing seen with
  | nil => exact List.nodup_nil
  | cons a t ih =>
    by_cases h : a ∈ seen
    · rw [uniqueAux, if_pos h]
      exact ih seen
    · rw [uniqueAux, if_neg h]
      refine List.nodup_cons.mpr ⟨fun hc => ?_, ih (a :: seen)⟩
      exact ((mem_uniqueAux (a :: seen) t a).mp hc).2 (List.mem_cons_self a seen)

theorem nodup_uniqueFirst {α : Type} [DecidableEq α] (l : List α) :
    (uniqueFirst l).Nodup := nodup_uniqueAux [] l

theorem uniqueFirst_perm_dedup {α : Type} [DecidableEq α] (l : List α) :
    (uniqueFirst l).Perm l.dedup := by
  refine (List.perm_ext_iff_of_nodup (nodup_uniqueFirst l) l.nodup_dedup).mpr fun a => ?_
  rw [mem_uniqueFirst, List.mem_dedup]

theorem sum_count_uniqueFirst {α : Type} [DecidableEq α] (l : List α) :
    ((uniqueFirst l).map (fun d => l.countP (fun x => x == d))).sum = l.length := by
  have hperm := ((uniqueFirst_perm_dedup l).map (fun d => l.countP (fun x => x == d))).sum_eq
  rw [hperm]
  have hmap : l.dedup.map (fun d => l.countP (fun x => x == d)) =
      l.dedup.map (fun d => l.count d) := by
    refine List.map_congr_left fun d _ => ?_
    rw [List.count_eq_countP]
  rw [hmap]
  exact List.sum_map_count_dedup_eq_length l

theorem round1_natCast (n : ℕ) : round1 ((n : ℕ) : ℚ) = n := by
  have h10 : (10 : ℚ) * (n : ℚ) = ((10 * n : ℕ) : ℚ) := by push_cast; ring
  have hfr : Int.fract ((10 * n : ℕ) : ℚ) = 0 := Int.fract_natCast _
  have hfl : ⌊((10 * n : ℕ) : ℚ)⌋ = ((10 * n : ℕ) : ℤ) := Int.floor_natCast _
  rw [round1, h10, roundHalfEven, hfr, hfl]
  norm_num

theorem length_dfHead {α : Type} (n : ℤ) (l : List α) :
    (dfHead n l).length =
      if 0 ≤ n then Nat.min n.toNat l.length else l.length - n.natAbs := by
  by_cases h : 0 ≤ n
  · rw [dfHead, if_pos h, if_pos h, List.length_take]
  · rw [dfHead, if_neg h, if_neg h, List.length_take]
    omega

theorem dfHead_append {α : Type} (n : ℤ) (l : List α) : ∃ t, l = dfHead n l ++ t := by
  by_cases h : 0 ≤ n
  · exact ⟨l.drop n.toNat, by rw [dfHead, if_pos h, List.take_append_drop]⟩
  · exact ⟨l.drop (l.length - n.natAbs), by rw [dfHead, if_neg h, List.take_append_drop]⟩

theorem length_rankedSongs (rows : List Row) :
    (rankedSongs rows).length =
      (uniqueFirst (rows.map (fun r => cleanSong r.song))).length := by
  rw [rankedSongs, (List.perm_insertionSort _ _).length_eq, List.length_map, songCounts,
    List.length_map, (List.perm_insertionSort _ _).length_eq]

/-! ### Claim theorems -/

/-- C1 (code bug evaluation).  On the dataset `repeatRows`, where `Song1` is
played twice at the single show of 2023-01-01, `get_top_songs` reports
`play_count = 2` with `percentage = 200.0`, while the number of distinct
dates at which the clean song appears is `1` (and the dataset has exactly
one show): `play_count` is the raw row count, not the distinct-show count,
and the percentage computed against the distinct-show total exceeds 100%. -/
theorem c1_play_count_is_row_count :
    get_top_songs repeatRows 10 = [⟨"Song1", 2, 200⟩]
    ∧ distinctShowDates repeatRows "Song1" = 1
    ∧ totalShows repeatRows = 1 := by
  refine ⟨?_, by decide, by decide⟩
  have hc : songCounts repeatRows = [("Song1", 2)] := by decide
  have ht : totalShows repeatRows = 1 := by decide
  rw [get_top_songs, rankedSongs, hc, ht]
  have hq : ((2 : ℕ) : ℚ) / ((1 : ℕ) : ℚ) * 100 = ((200 : ℕ) : ℚ) := by norm_num
  simp only [List.map_cons, List.map_nil, List.insertionSort, List.orderedInsert, hq,
    round1_natCast]
  norm_num [dfHead]

/-- C2 (counterexample).  `get_top_songs` does not fail on non-positive `n`:
with `n = 0` it returns the empty frame and with `n = -1` it returns all but
the last entry of the two-entry ranking of the example dataset -- no
`InvalidArgument` error exists in the source. -/
theorem c2_nonpositive_n_returns :
    get_top_songs exampleRows 0 = []
    ∧ (get_top_songs exampleRows (-1)).length = 1 := by
  constructor
  · rfl
  · have hc : songCounts exampleRows = [("Song1", 2), ("Song2", 1)] := by decide
    rw [get_top_songs, length_dfHead, length_rankedSongs]
    decide

/-- C2 (amended).  `get_top_songs` performs no validation of `n`: it always
returns, with `head` semantics -- for `n ≥ 0` the first
`min n (number of distinct clean songs)` entries of the ranking, for
negative `n` all entries but the last `|n|`; the returned list is an
initial segment of the full ranking, and the default call uses `n = 10`. -/
theorem c2_head_semantics (rows : List Row) (n : ℤ) :
    (get_top_songs rows n).length =
      (if 0 ≤ n then
        Nat.min n.toNat (uniqueFirst (rows.map (fun r => cleanSong r.song))).length
      else (uniqueFirst (rows.map (fun r => cleanSong r.song))).length - n.natAbs)
    ∧ (∃ t, rankedSongs rows = get_top_songs rows n ++ t)
    ∧ get_top_songs_default rows = get_top_songs rows 10 := by
  refine ⟨?_, dfHead_append n (rankedSongs rows), rfl⟩
  rw [get_top_songs, length_dfHead, length_rankedSongs]

/-- C3 (counterexample).  On the empty dataset `get_stats` raises instead of
returning a record of zero counts: `df['Date'].min()` is `NaT` and
`NaT.strftime('%Y-%m-%d')` raises `ValueError`. -/
theorem c3_empty_stats_raises :
    ∃ e, get_stats ([] : List Row) = Except.error e := ⟨.valueError, rfl⟩

/-- C3 (amended).  On the empty dataset `get_stats` fails with the
`ValueError` of formatting the undefined date range; the zero-count record
is never returned. -/
theorem c3_empty_stats_value_error :
    get_stats ([] : List Row) = Except.error ConcertError.valueError := rfl

/-- C4.  On the worked example dataset, `get_stats` yields
`total_shows = 2`, `total_songs = 3`, `unique_songs = 2`,
`total_venues = 2`, date range 2023-01-01 .. 2023-06-01, `covers = 1` and
no special performances; `get_top_songs 1` yields exactly
`("Song1", 2, 100.0)`; and `get_rare_songs` yields exactly
`["Song2 (cover)"]`. -/
theorem c4_worked_example :
    get_stats exampleRows = Except.ok ⟨2, 3, 2, 2, 20230101, 20230601, 1, 0⟩
    ∧ get_top_songs exampleRows 1 = [⟨"Song1", 2, 100⟩]
    ∧ get_rare_songs exampleRows = ["Song2 (cover)"] := by
  refine ⟨by decide, ?_, by decide⟩
  have hc : songCounts exampleRows = [("Song1", 2), ("Song2", 1)] := by decide
  have ht : totalShows exampleRows = 2 := by decide
  rw [get_top_songs, rankedSongs, hc, ht]
  have hq : ((2 : ℕ) : ℚ) / ((2 : ℕ) : ℚ) * 100 = ((100 : ℕ) : ℚ) := by norm_num
  simp only [List.map_cons, List.map_nil, List.insertionSort, List.orderedInsert, hq,
    round1_natCast]
  norm_num [dfHead, topSongGe]

theorem get_stats_ok_fields (rows : List Row) (st : Stats)
    (h : get_stats rows = Except.ok st) :
    st.total_shows = totalShows rows ∧ st.total_songs = rows.length := by
  rw [get_stats] at h
  cases hmin : optMin (rows.map Row.date) with
  | none =>
    rw [hmin] at h
    cases hmax : optMax (rows.map Row.date) <;> rw [hmax] at h <;> exact absurd h (by simp)
  | some lo =>
    rw [hmin] at h
    cases hmax : optMax (rows.map Row.date) with
    | none => rw [hmax] at h; exact absurd h (by simp)
    | some hi =>
      rw [hmax] at h
      obtain rfl := Except.ok.inj h
      exact ⟨rfl, rfl⟩

/-- C5.  Whenever the export exists (equivalently, whenever `get_stats`
returns), the exported `shows` list has exactly `total_shows` entries, the
sum of their `song_count` fields is `total_songs`, and each entry's
`song_count` equals the length of its song list. -/
theorem c5_export_roundtrip (rows : List Row) (st : Stats)
    (h : get_stats rows = Except.ok st) :
    ∃ doc, export_for_visualization rows = Except.ok doc ∧ doc.stats = st
      ∧ doc.shows.length = st.total_shows
      ∧ (doc.shows.map ShowEntry.song_count).sum = st.total_songs
      ∧ ∀ e, e ∈ doc.shows → e.song_count = e.songs.length := by
  obtain ⟨h1, h2⟩ := get_stats_ok_fields rows st h
  refine ⟨⟨exportShows rows, get_top_songs rows 20, get_venue_stats rows,
    get_rare_songs rows, st⟩, ?_, rfl, ?_, ?_, ?_⟩
  · rw [export_for_visualization, h]
    rfl
  · rw [h1, exportShows, List.length_map]
    rfl
  · rw [h2, exportShows, List.map_map]
    have hconv : ∀ d, (rows.filter (fun r => r.date == d)).length =
        (rows.map Row.date).countP (fun x => x == d) := by
      intro d
      rw [← List.countP_eq_length_filter, List.countP_map]
      rfl
    have hfun : List.map
        (ShowEntry.song_count ∘ fun d =>
          (⟨d, (((rows.filter (fun r => r.date == d)).head?).map Row.venue).getD "",
            (rows.filter (fun r => r.date == d)).map Row.song,
            (rows.filter (fun r => r.date == d)).length⟩ : ShowEntry))
        (uniqueFirst (rows.map Row.date)) =
        List.map (fun d => (rows.map Row.date).countP (fun x => x == d))
          (uniqueFirst (rows.map Row.date)) :=
      List.map_congr_left fun d _ => hconv d
    rw [hfun, sum_count_uniqueFirst, List.length_map]
  · intro e he
    rw [exportShows] at he
    obtain ⟨d, _, rfl⟩ := List.mem_map.mp he
    simp

/-- C9.  `get_show_setlist` returns the raw songs of the rows with the
given date: a sublist of the raw songs in original row order, of length the
number of matching rows, containing exactly the songs of matching rows, and
empty exactly when no row has the date (never an error). -/
theorem c9_show_setlist_spec (rows : List Row) (d : ℕ) :
    List.Sublist (get_show_setlist rows d) (rows.map Row.song)
    ∧ (get_show_setlist rows d).length = rows.countP (fun r => r.date == d)
    ∧ (∀ s, s ∈ get_show_setlist rows d ↔ ∃ r, r ∈ rows ∧ r.date = d ∧ r.song = s)
    ∧ (get_show_setlist rows d = [] ↔ ∀ r ∈ rows, r.date ≠ d) := by
  refine ⟨(List.filter_sublist rows).map Row.song, ?_, ?_, ?_⟩
  · rw [get_show_setlist, List.length_map, ← List.countP_eq_length_filter]
  · intro s
    rw [get_show_setlist]
    constructor
    · intro hs
      obtain ⟨r, hr, rfl⟩ := List.mem_map.mp hs
      obtain ⟨hrm, hrd⟩ := List.mem_filter.mp hr
      exact ⟨r, hrm, beq_iff_eq.mp hrd, rfl⟩
    · rintro ⟨r, hrm, hrd, rfl⟩
      exact List.mem_map.mpr ⟨r, List.mem_filter.mpr ⟨hrm, beq_iff_eq.mpr hrd⟩, rfl⟩
  · rw [get_show_setlist, List.map_eq_nil_iff, List.filter_eq_nil_iff]
    constructor
    · intro h r hr hd
      exact (h r hr) (beq_iff_eq.mpr hd)
    · intro h r hr hc
      exact h r hr (beq_iff_eq.mp hc)

theorem mem_songCounts (rows : List Row) (p : String × ℕ) :
    p ∈ songCounts rows ↔
      ∃ c, c ∈ rows.map (fun r => cleanSong r.song) ∧
        p = (c, rows.countP (fun r => cleanSong r.song == c)) := by
  rw [songCounts]
  constructor
  · intro hp
    obtain ⟨c, hc, rfl⟩ := List.mem_map.mp hp
    rw [(List.perm_insertionSort _ _).mem_iff, mem_uniqueFirst] at hc
    exact ⟨c, hc, rfl⟩
  · rintro ⟨c, hc, rfl⟩
    refine List.mem_map.mpr ⟨c, ?_, rfl⟩
    rw [(List.perm_insertionSort _ _).mem_iff, mem_uniqueFirst]
    exact hc

/-- C7.  A string belongs to `get_rare_songs` exactly when it is the raw
song of some row whose clean song occurs in exactly one row of the whole
dataset. -/
theorem c7_rare_songs_iff (rows : List Row) (s : String) :
    s ∈ get_rare_songs rows ↔
      ∃ r, r ∈ rows ∧ r.song = s ∧
        rows.countP (fun x => cleanSong x.song == cleanSong s) = 1 := by
  rw [get_rare_songs, mem_uniqueFirst]
  constructor
  · intro hs
    obtain ⟨r, hr, rfl⟩ := List.mem_map.mp hs
    obtain ⟨hrm, hcont⟩ := List.mem_filter.mp hr
    have hmem : cleanSong r.song ∈
        ((songCounts rows).filter (fun p => p.2 == 1)).map Prod.fst :=
      List.elem_iff.mp hcont
    obtain ⟨p, hp, hfst⟩ := List.mem_map.mp hmem
    obtain ⟨hpmem, hp1⟩ := List.mem_filter.mp hp
    obtain ⟨c, _, rfl⟩ := (mem_songCounts rows p).mp hpmem
    have hc : c = cleanSong r.song := hfst
    subst hc
    exact ⟨r, hrm, rfl, beq_iff_eq.mp hp1⟩
  · rintro ⟨r, hrm, rfl, hcnt⟩
    refine List.mem_map.mpr ⟨r, List.mem_filter.mpr ⟨hrm, ?_⟩, rfl⟩
    refine List.elem_iff.mpr (List.mem_map.mpr
      ⟨(cleanSong r.song, rows.countP (fun x => cleanSong x.song == cleanSong r.song)),
        List.mem_filter.mpr ⟨?_, beq_iff_eq.mpr hcnt⟩, rfl⟩)
    exact (mem_songCounts rows _).mpr
      ⟨cleanSong r.song, List.mem_map.mpr ⟨r, hrm, rfl⟩, rfl⟩

theorem reSearch_nil_true (l : List Char) : reSearch [] l = true := by
  cases l <;> rfl

/-- C6 (counterexample).  `find_song_appearances` treats its argument as a
regular expression: the pattern `.` matches the row with clean song `ab`,
which does not contain the character `.` as a substring, so the claimed
plain-substring reading returns no row while the source returns one. -/
theorem c6_dot_matches_any :
    find_song_appearances [⟨1, "V", "ab"⟩] "." = some [⟨1, "V", "ab"⟩]
    ∧ claimedFindSongAppearances [⟨1, "V", "ab"⟩] "." = []
    ∧ icontains (cleanSong "ab") "." = false := by decide

/-- C6 (amended).  For a pattern of the modelled regex fragment,
`find_song_appearances` returns exactly the rows whose clean song contains
a case-insensitive match of the pattern interpreted as a regular
expression (`.` matching any character except newline), sorted ascending
by date; the empty pattern matches every row, so the call returns a
permutation of the whole dataset, without error. -/
theorem c6_regex_semantics (rows : List Row) (pat : String) (toks : List RTok)
    (h : parsePat (lowerChars pat.data) = some toks) :
    ∃ out, find_song_appearances rows pat = some out
      ∧ (∀ r : Row, r ∈ out ↔
          r ∈ rows ∧ reSearch toks (lowerChars (cleanSong r.song).data) = true)
      ∧ List.Pairwise (fun a b : Row => a.date ≤ b.date) out
      ∧ (pat = "" → List.Perm out rows) := by
  refine ⟨List.insertionSort rowDateLe
      (rows.filter (fun r => reSearch toks (lowerChars (cleanSong r.song).data))),
    ?_, ?_, ?_, ?_⟩
  · rw [find_song_appearances, h]
    rfl
  · intro r
    rw [(List.perm_insertionSort _ _).mem_iff, List.mem_filter]
  · exact (List.sorted_insertionSort rowDateLe _).imp (fun hh => hh)
  · rintro rfl
    have h0 : parsePat (lowerChars ("" : String).data) = some [] := rfl
    obtain rfl : ([] : List RTok) = toks := Option.some.inj (h0.symm.trans h)
    have hfilter :
        rows.filter (fun r => reSearch [] (lowerChars (cleanSong r.song).data)) = rows :=
      List.filter_eq_self.mpr fun a _ => reSearch_nil_true _
    rw [hfilter]
    exact List.perm_insertionSort rowDateLe rows

/-- C6 (witness).  Instantiation at the one-row dataset and the pattern
`.`, whose parse is `[dot]`. -/
theorem c6_regex_semantics_witness :
    ∃ out, find_song_appearances [⟨1, "V", "ab"⟩] "." = some out
      ∧ (∀ r : Row, r ∈ out ↔
          r ∈ [(⟨1, "V", "ab"⟩ : Row)] ∧
            reSearch [RTok.dot] (lowerChars (cleanSong r.song).data) = true)
      ∧ List.Pairwise (fun a b : Row => a.date ≤ b.date) out
      ∧ ("." = "" → List.Perm out [(⟨1, "V", "ab"⟩ : Row)]) :=
  c6_regex_semantics [⟨1, "V", "ab"⟩] "." [RTok.dot] (by decide)

/-- C5 (witness).  Instantiation at the worked example dataset, whose
statistics record is computed concretely. -/
theorem c5_export_roundtrip_witness :
    ∃ doc, export_for_visualization exampleRows = Except.ok doc
      ∧ doc.stats = (⟨2, 3, 2, 2, 20230101, 20230601, 1, 0⟩ : Stats)
      ∧ doc.shows.length = (⟨2, 3, 2, 2, 20230101, 20230601, 1, 0⟩ : Stats).total_shows
      ∧ (doc.shows.map ShowEntry.song_count).sum =
          (⟨2, 3, 2, 2, 20230101, 20230601, 1, 0⟩ : Stats).total_songs
      ∧ ∀ e, e ∈ doc.shows → e.song_count = e.songs.length :=
  c5_export_roundtrip exampleRows ⟨2, 3, 2, 2, 20230101, 20230601, 1, 0⟩ (by decide)

/-- C8.  `get_venue_stats` has one entry per distinct venue (its venue
column is a permutation of the distinct venues and has no duplicate); each
entry carries the distinct-date count at the venue, the row count at the
venue, and their rounded ratio; and the sequence is sorted by descending
`shows` (the embedding's tie order, insertion sort over the
alphabetically-grouped venues, is deterministic). -/
theorem c8_venue_stats_spec (rows : List Row) :
    ((get_venue_stats rows).map VenueStat.venue).Perm (uniqueFirst (rows.map Row.venue))
    ∧ ((get_venue_stats rows).map VenueStat.venue).Nodup
    ∧ (∀ e, e ∈ get_venue_stats rows →
        e.shows = (uniqueFirst ((rows.filter (fun r => r.venue == e.venue)).map Row.date)).length
        ∧ e.total_songs = (rows.filter (fun r => r.venue == e.venue)).length
        ∧ e.avg_songs_per_show = round1 ((e.total_songs : ℚ) / (e.shows : ℚ)))
    ∧ List.Pairwise (fun a b : VenueStat => b.shows ≤ a.shows) (get_venue_stats rows) := by
  have hperm :
      ((get_venue_stats rows).map VenueStat.venue).Perm (uniqueFirst (rows.map Row.venue)) := by
    rw [get_venue_stats]
    refine ((List.perm_insertionSort venueGe _).map VenueStat.venue).trans ?_
    rw [List.map_map]
    have hid : List.map
        (VenueStat.venue ∘ fun v =>
          (⟨v, (uniqueFirst ((rows.filter (fun r => r.venue == v)).map Row.date)).length,
            (rows.filter (fun r => r.venue == v)).length,
            round1
              (((rows.filter (fun r => r.venue == v)).length : ℚ) /
                ((uniqueFirst ((rows.filter (fun r => r.venue == v)).map Row.date)).length :
                  ℚ))⟩ : VenueStat))
        (List.insertionSort strLe (uniqueFirst (rows.map Row.venue))) =
        List.map id (List.insertionSort strLe (uniqueFirst (rows.map Row.venue))) :=
      List.map_congr_left fun v _ => rfl
    rw [hid, List.map_id]
    exact List.perm_insertionSort strLe _
  refine ⟨hperm, hperm.nodup_iff.mpr (nodup_uniqueFirst _), ?_, ?_⟩
  · intro e he
    rw [get_venue_stats, (List.perm_insertionSort _ _).mem_iff] at he
    obtain ⟨v, _, rfl⟩ := List.mem_map.mp he
    exact ⟨rfl, rfl, rfl⟩
  · exact (List.sorted_insertionSort venueGe _).imp (fun hh => hh)

/-! ### Lemmas for the parenthetical-stripping analysis (C10) -/

theorem lastClose_none_iff (l : List Char) : lastClose l = none ↔ ')' ∉ l := by
  induction l with
  | nil => simp [lastClose]
  | cons c rest ih =>
    cases h : lastClose rest with
    | some j =>
      rw [lastClose, h]
      have hmem : ')' ∈ rest := by
        by_contra hn
        rw [ih.mpr hn] at h
        exact Option.noConfusion h
      exact ⟨fun hc => Option.noConfusion hc,
        fun hc => (hc (List.mem_cons_of_mem c hmem)).elim⟩
    | none =>
      rw [lastClose, h]
      by_cases hc : c = ')'
      · rw [if_pos hc]
        exact ⟨fun h0 => Option.noConfusion h0,
          fun hn => (hn (hc ▸ List.mem_cons_self c rest)).elim⟩
      · rw [if_neg hc]
        refine ⟨fun _ hn => ?_, fun _ => rfl⟩
        rcases List.mem_cons.mp hn with h1 | h1
        · exact hc h1.symm
        · exact (ih.mp h) h1

theorem firstOpen_none_iff (l : List Char) : firstOpen l = none ↔ '(' ∉ l := by
  induction l with
  | nil => simp [firstOpen]
  | cons c rest ih =>
    rw [firstOpen]
    by_cases hc : c = '('
    · rw [if_pos hc]
      exact ⟨fun h0 => Option.noConfusion h0,
        fun hn => (hn (hc ▸ List.mem_cons_self c rest)).elim⟩
    · rw [if_neg hc]
      cases h : firstOpen rest with
      | some i =>
        have hmem : '(' ∈ rest := by
          by_contra hn
          rw [ih.mpr hn] at h
          exact Option.noConfusion h
        exact ⟨fun hc0 => Option.noConfusion hc0,
          fun hn => (hn (List.mem_cons_of_mem c hmem)).elim⟩
      | none =>
        refine ⟨fun _ hn => ?_, fun _ => rfl⟩
        rcases List.mem_cons.mp hn with h1 | h1
        · exact hc h1.symm
        · exact (ih.mp h) h1

theorem lastClose_drop (l : List Char) (j : ℕ) (h : lastClose l = some j) :
    ')' ∉ l.drop (j + 1) := by
  induction l generalizing j with
  | nil => exact Option.noConfusion h
  | cons c rest ih =>
    rw [lastClose] at h
    cases hr : lastClose rest with
    | some j' =>
      rw [hr] at h
      obtain rfl : j' + 1 = j := Option.some.inj h
      rw [List.drop_succ_cons]
      exact ih j' hr
    | none =>
      rw [hr] at h
      by_cases hc : c = ')'
      · rw [if_pos hc] at h
        obtain rfl : 0 = j := Option.some.inj h
        rw [List.drop_succ_cons, List.drop_zero]
        exact (lastClose_none_iff rest).mp hr
      · rw [if_neg hc] at h
        exact Option.noConfusion h

theorem firstOpen_take (l : List Char) (i : ℕ) (h : firstOpen l = some i) :
    '(' ∉ l.take i := by
  induction l generalizing i with
  | nil => exact Option.noConfusion h
  | cons c rest ih =>
    rw [firstOpen] at h
    by_cases hc : c = '('
    · rw [if_pos hc] at h
      obtain rfl : 0 = i := Option.some.inj h
      exact List.not_mem_nil '('
    · rw [if_neg hc] at h
      cases hr : firstOpen rest with
      | some i' =>
        rw [hr] at h
        obtain rfl : i' + 1 = i := Option.some.inj h
        rw [List.take_succ_cons]
        intro hmem
        rcases List.mem_cons.mp hmem with h1 | h1
        · exact hc h1.symm
        · exact ih i' hr h1
      | none =>
        rw [hr] at h
        exact Option.noConfusion h

theorem firstOpen_drop (l : List Char) (i : ℕ) (h : firstOpen l = some i) :
    ∃ t, l.drop i = '(' :: t := by
  induction l generalizing i with
  | nil => exact Option.noConfusion h
  | cons c rest ih =>
    rw [firstOpen] at h
    by_cases hc : c = '('
    · rw [if_pos hc] at h
      obtain rfl : 0 = i := Option.some.inj h
      exact ⟨rest, by rw [List.drop_zero, hc]⟩
    · rw [if_neg hc] at h
      cases hr : firstOpen rest with
      | some i' =>
        rw [hr] at h
        obtain rfl : i' + 1 = i := Option.some.inj h
        rw [List.drop_succ_cons]
        exact ih i' hr
      | none =>
        rw [hr] at h
        exact Option.noConfusion h

theorem lastClose_drop_head (l : List Char) (j : ℕ) (h : lastClose l = some j) :
    ∃ t, l.drop j = ')' :: t := by
  induction l generalizing j with
  | nil => exact Option.noConfusion h
  | cons c rest ih =>
    rw [lastClose] at h
    cases hr : lastClose rest with
    | some j' =>
      rw [hr] at h
      obtain rfl : j' + 1 = j := Option.some.inj h
      rw [List.drop_succ_cons]
      exact ih j' hr
    | none =>
      rw [hr] at h
      by_cases hc : c = ')'
      · rw [if_pos hc] at h
        obtain rfl : 0 = j := Option.some.inj h
        exact ⟨rest, by rw [List.drop_zero, hc]⟩
      · rw [if_neg hc] at h
        exact Option.noConfusion h

theorem subParenAux_zero (l : List Char) : subParenAux 0 l = l := by
  cases l <;> rfl

theorem subParenAux_succ_cons (fuel : ℕ) (c : Char) (rest : List Char) :
    subParenAux (fuel + 1) (c :: rest) =
      if c = '(' then
        match lastClose (rest.takeWhile (fun x => !(x == '\n'))) with
        | some j => subParenAux fuel (rest.drop (j + 1))
        | none => c :: subParenAux fuel rest
      else c :: subParenAux fuel rest := rfl

theorem mem_of_takeWhile {α : Type} (p : α → Bool) (l : List α) (a : α)
    (h : a ∈ l.takeWhile p) : a ∈ l := by
  induction l with
  | nil => exact absurd h (List.not_mem_nil a)
  | cons b t ih =>
    rw [List.takeWhile_cons] at h
    by_cases hb : p b = true
    · rw [if_pos hb] at h
      rcases List.mem_cons.mp h with rfl | h1
      · exact List.mem_cons_self _ _
      · exact List.mem_cons_of_mem b (ih h1)
    · rw [if_neg hb] at h
      exact absurd h (List.not_mem_nil a)

theorem subParenAux_no_close (fuel : ℕ) (l : List Char) (h : ')' ∉ l) :
    subParenAux fuel l = l := by
  induction fuel generalizing l with
  | zero => exact subParenAux_zero l
  | succ fuel ih =>
    cases l with
    | nil => rfl
    | cons c rest =>
      have hrest : ')' ∉ rest := fun hm => h (List.mem_cons_of_mem c hm)
      have htw : lastClose (rest.takeWhile (fun x => !(x == '\n'))) = none :=
        (lastClose_none_iff _).mpr fun hm => hrest (mem_of_takeWhile _ _ _ hm)
      rw [subParenAux_succ_cons]
      by_cases hc : c = '('
      · rw [if_pos hc, htw]
        show c :: subParenAux fuel rest = c :: rest
        rw [ih rest hrest]
      · rw [if_neg hc, ih rest hrest]

theorem claimedParenDelete_of_some (l : List Char) (i j : ℕ) (hf : firstOpen l = some i)
    (hl : lastClose l = some j) (hij : i < j) :
    claimedParenDelete l = l.take i ++ l.drop (j + 1) := by
  rw [claimedParenDelete, hf, hl]
  show (if i < j then l.take i ++ l.drop (j + 1) else l) = _
  rw [if_pos hij]

theorem claimedParenDelete_of_not_lt (l : List Char) (i j : ℕ) (hf : firstOpen l = some i)
    (hl : lastClose l = some j) (hij : ¬ i < j) : claimedParenDelete l = l := by
  rw [claimedParenDelete, hf, hl]
  show (if i < j then l.take i ++ l.drop (j + 1) else l) = l
  rw [if_neg hij]

theorem claimedParenDelete_no_open (l : List Char) (hf : firstOpen l = none) :
    claimedParenDelete l = l := by
  cases hl : lastClose l with
  | none => rw [claimedParenDelete, hf, hl]
  | some j => rw [claimedParenDelete, hf, hl]

theorem claimedParenDelete_no_close (l : List Char) (hl : lastClose l = none) :
    claimedParenDelete l = l := by
  cases hf : firstOpen l with
  | none => rw [claimedParenDelete, hf, hl]
  | some i => rw [claimedParenDelete, hf, hl]

theorem claimedParenDelete_cons (c : Char) (rest : List Char) (hc : c ≠ '(') :
    claimedParenDelete (c :: rest) = c :: claimedParenDelete rest := by
  have hfc : firstOpen (c :: rest) = (firstOpen rest).map (· + 1) := by
    rw [firstOpen, if_neg hc]
  cases hf : firstOpen rest with
  | none =>
    have h1 : firstOpen (c :: rest) = none := by rw [hfc, hf]; rfl
    rw [claimedParenDelete_no_open _ h1, claimedParenDelete_no_open _ hf]
  | some i =>
    have h1 : firstOpen (c :: rest) = some (i + 1) := by rw [hfc, hf]; rfl
    cases hl : lastClose rest with
    | some j =>
      have h2 : lastClose (c :: rest) = some (j + 1) := by rw [lastClose, hl]
      by_cases hij : i < j
      · rw [claimedParenDelete_of_some _ _ _ h1 h2 (Nat.succ_lt_succ hij),
          claimedParenDelete_of_some _ _ _ hf hl hij]
        rw [List.take_succ_cons, List.drop_succ_cons, List.cons_append]
      · rw [claimedParenDelete_of_not_lt _ _ _ h1 h2
            (fun hcon => hij (Nat.lt_of_succ_lt_succ hcon)),
          claimedParenDelete_of_not_lt _ _ _ hf hl hij]
    | none =>
      by_cases hcc : c = ')'
      · have h2 : lastClose (c :: rest) = some 0 := by
          rw [lastClose, hl]
          show (if c = ')' then some 0 else none) = some 0
          rw [if_pos hcc]
        rw [claimedParenDelete_of_not_lt _ _ _ h1 h2 (by omega),
          claimedParenDelete_no_close _ hl]
      · have h2 : lastClose (c :: rest) = none := by
          rw [lastClose, hl]
          show (if c = ')' then some 0 else none) = none
          rw [if_neg hcc]
        rw [claimedParenDelete_no_close _ h2, claimedParenDelete_no_close _ hl]

theorem takeWhile_no_newline (l : List Char) (h : '\n' ∉ l) :
    l.takeWhile (fun x => !(x == '\n')) = l :=
  List.takeWhile_eq_self_iff.mpr fun a ha => by
    have hne : a ≠ '\n' := fun hcc => h (hcc ▸ ha)
    simp [hne]

theorem subParenAux_claimed (fuel : ℕ) (l : List Char) (hnl : '\n' ∉ l)
    (hlen : l.length ≤ fuel) : subParenAux fuel l = claimedParenDelete l := by
  induction fuel generalizing l with
  | zero =>
    obtain rfl : l = [] := List.length_eq_zero.mp (Nat.le_zero.mp hlen)
    rfl
  | succ fuel ih =>
    cases l with
    | nil => rfl
    | cons c rest =>
      have hnlr : '\n' ∉ rest := fun hm => hnl (List.mem_cons_of_mem c hm)
      have hlenr : rest.length ≤ fuel := by
        rw [List.length_cons] at hlen
        omega
      rw [subParenAux_succ_cons]
      by_cases hc : c = '('
      · subst hc
        rw [if_pos rfl, takeWhile_no_newline rest hnlr]
        cases hl : lastClose rest with
        | some j =>
          show subParenAux fuel (rest.drop (j + 1)) = _
          rw [subParenAux_no_close fuel _ (lastClose_drop rest j hl)]
          have h1 : firstOpen ('(' :: rest) = some 0 := by
            rw [firstOpen]
            show (if ('(' : Char) = '(' then some 0 else (firstOpen rest).map (· + 1)) = some 0
            rw [if_pos rfl]
          have h2 : lastClose ('(' :: rest) = some (j + 1) := by rw [lastClose, hl]
          rw [claimedParenDelete_of_some _ _ _ h1 h2 (Nat.succ_pos j)]
          rw [List.take_zero, List.nil_append, List.drop_succ_cons]
        | none =>
          show '(' :: subParenAux fuel rest = _
          rw [subParenAux_no_close fuel rest ((lastClose_none_iff rest).mp hl)]
          have h2 : lastClose ('(' :: rest) = none := by
            rw [lastClose, hl]
            show (if ('(' : Char) = ')' then some 0 else none) = none
            rw [if_neg (by decide)]
          rw [claimedParenDelete_no_close _ h2]
      · rw [if_neg hc, ih rest hnlr hlenr, claimedParenDelete_cons c rest hc]

theorem subParen_claimed (l : List Char) (hnl : '\n' ∉ l) :
    subParen l = claimedParenDelete l :=
  subParenAux_claimed l.length l hnl le_rfl

theorem oc_true_iff (l : List Char) : containsOpenClose l = true ↔ List.Sublist ['(', ')'] l := by
  induction l with
  | nil =>
    constructor
    · intro h
      exact absurd h (by decide)
    · intro h
      exact absurd (List.sublist_nil.mp h) (by decide)
  | cons c rest ih =>
    by_cases hc : c = '('
    · subst hc
      have hred : containsOpenClose ('(' :: rest) = rest.contains ')' := by
        rw [containsOpenClose, List.dropWhile_cons]
        norm_num
      rw [hred]
      constructor
      · intro h
        exact List.Sublist.cons₂ '(' (List.singleton_sublist.mpr (List.elem_iff.mp h))
      · intro h
        cases h with
        | cons a h' => exact List.elem_iff.mpr (h'.subset (by simp))
        | cons₂ a h' => exact List.elem_iff.mpr (List.singleton_sublist.mp h')
    · have hred : containsOpenClose (c :: rest) = containsOpenClose rest := by
        rw [containsOpenClose, containsOpenClose, List.dropWhile_cons]
        have hb : (!(c == '(')) = true := by simp [hc]
        rw [if_pos hb]
      rw [hred, ih]
      constructor
      · intro h
        exact List.Sublist.cons c h
      · intro h
        cases h with
        | cons a h' => exact h'
        | cons₂ a h' => exact absurd rfl hc

theorem oc_false_of_not_sub (l : List Char) (h : ¬ List.Sublist ['(', ')'] l) :
    containsOpenClose l = false := by
  cases hb : containsOpenClose l
  · rfl
  · exact absurd ((oc_true_iff l).mp hb) h

theorem no_oc_append (A B : List Char) (hA : '(' ∉ A) (hB : ')' ∉ B) :
    containsOpenClose (A ++ B) = false := by
  apply oc_false_of_not_sub
  intro hsub
  obtain ⟨l₁, l₂, heq, h₁, h₂⟩ := List.sublist_append_iff.mp hsub
  cases l₁ with
  | nil =>
    rw [List.nil_append] at heq
    subst heq
    exact hB (h₂.subset (by simp))
  | cons a l₁' =>
    rw [List.cons_append] at heq
    injection heq with ha _
    subst ha
    exact hA (h₁.subset (List.mem_cons_self _ _))

theorem oc_mono (l' l : List Char) (hsub : List.Sublist l' l)
    (h : containsOpenClose l = false) : containsOpenClose l' = false := by
  apply oc_false_of_not_sub
  intro hc
  have htrue := (oc_true_iff l).mpr (hc.trans hsub)
  rw [h] at htrue
  exact Bool.noConfusion htrue

theorem stripChars_sublist (l : List Char) : List.Sublist (stripChars l) l := by
  have h1 : List.Sublist ((l.dropWhile isWsChar).reverse.dropWhile isWsChar)
      (l.dropWhile isWsChar).reverse := List.dropWhile_sublist _
  have h2 := h1.reverse
  rw [List.reverse_reverse] at h2
  exact List.Sublist.trans h2 (List.dropWhile_sublist _)

theorem claimed_no_oc (l : List Char) :
    containsOpenClose (claimedParenDelete l) = false := by
  cases hf : firstOpen l with
  | none =>
    rw [claimedParenDelete_no_open l hf]
    have hA : '(' ∉ l := (firstOpen_none_iff l).mp hf
    have h0 := no_oc_append l [] hA (List.not_mem_nil ')')
    rwa [List.append_nil] at h0
  | some i =>
    cases hl : lastClose l with
    | none =>
      rw [claimedParenDelete_no_close l hl]
      have hB : ')' ∉ l := (lastClose_none_iff l).mp hl
      have h0 := no_oc_append [] l (List.not_mem_nil '(') hB
      rwa [List.nil_append] at h0
    | some j =>
      by_cases hij : i < j
      · rw [claimedParenDelete_of_some l i j hf hl hij]
        exact no_oc_append _ _ (firstOpen_take l i hf) (lastClose_drop l j hl)
      · rw [claimedParenDelete_of_not_lt l i j hf hl hij]
        have hji : j < i := by
          rcases Nat.lt_or_ge j i with h1 | h1
          · exact h1
          · exfalso
            have hii : i = j := Nat.le_antisymm h1 (Nat.le_of_not_lt hij)
            obtain ⟨t1, ht1⟩ := firstOpen_drop l i hf
            obtain ⟨t2, ht2⟩ := lastClose_drop_head l j hl
            rw [← hii] at ht2
            have hcc := ht1.symm.trans ht2
            injection hcc with hh _
            exact absurd hh (by decide)
        have hBdrop : ')' ∉ l.drop i := by
          intro hm
          have hdd : l.drop i = (l.drop (j + 1)).drop (i - (j + 1)) := by
            rw [List.drop_drop]
            congr 1
            omega
          rw [hdd] at hm
          exact lastClose_drop l j hl ((List.drop_sublist _ _).subset hm)
        have h0 := no_oc_append (l.take i) (l.drop i) (firstOpen_take l i hf) hBdrop
        rwa [List.take_append_drop] at h0

/-- C10 (counterexample).  For the song text `a(b
c)d` the greedy `.*` of
the substitution cannot cross the newline, so the source leaves the text
unchanged and the resulting `clean_song` does contain a `(` followed later
by a `)`; the claimed deletion from the first `(` to the last `)` would
instead produce `ad`. -/
theorem c10_newline_keeps_parens :
    cleanSong "a(b
c)d" = "a(b
c)d"
    ∧ containsOpenClose (cleanSong "a(b
c)d").data = true
    ∧ (claimedParenDelete ("a(b
c)d").data) = ("ad").data := by decide

/-- C10 (amended).  For every song text without a newline character,
`clean_song` is obtained by deleting the single greedy span from the first
`(` to the last `)` (when a `(` precedes some `)`; text between multiple
parenthetical groups is deleted with them) and trimming surrounding
whitespace; consequently such a `clean_song` never contains a `(` that is
followed later by a `)`.  When the text inside the parentheses contains a
newline, the `.`-wildcard of the substitution cannot cross it and the
parentheses survive. -/
theorem c10_clean_song_paren_invariant (s : String) (h : '
' ∉ s.data) :
    cleanSong s = String.mk (stripChars (claimedParenDelete s.data))
    ∧ containsOpenClose (cleanSong s).data = false := by
  have hsub : subParen s.data = claimedParenDelete s.data := subParen_claimed s.data h
  constructor
  · rw [cleanSong, hsub]
  · show containsOpenClose (stripChars (subParen s.data)) = false
    exact oc_mono _ _ (stripChars_sublist _) (by rw [hsub]; exact claimed_no_oc s.data)

/-- C10 (witness).  Instantiation at a title with two parenthetical groups:
the text between the groups is deleted with them. -/
theorem c10_clean_song_paren_invariant_witness :
    (cleanSong "a (x) b (y) c" =
        String.mk (stripChars (claimedParenDelete ("a (x) b (y) c").data))
      ∧ containsOpenClose (cleanSong "a (x) b (y) c").data = false)
    ∧ cleanSong "a (x) b (y) c" = "a  c" :=
  ⟨c10_clean_song_paren_invariant "a (x) b (y) c" (by decide), by decide⟩

/-- C2 (witness).  Instantiation of the head-semantics theorem at the
example dataset with `n = 1`. -/
theorem c2_head_semantics_witness :
    (get_top_songs exampleRows 1).length =
      (if 0 ≤ (1 : ℤ) then
        Nat.min (1 : ℤ).toNat
          (uniqueFirst (exampleRows.map (fun r => cleanSong r.song))).length
      else (uniqueFirst (exampleRows.map (fun r => cleanSong r.song))).length -
        (1 : ℤ).natAbs)
    ∧ (∃ t, rankedSongs exampleRows = get_top_songs exampleRows 1 ++ t)
    ∧ get_top_songs_default exampleRows = get_top_songs exampleRows 10 :=
  c2_head_semantics exampleRows 1

/-- C7 (witness).  Instantiation at the example dataset and its unique rare
song. -/
theorem c7_rare_songs_iff_witness :
    "Song2 (cover)" ∈ get_rare_songs exampleRows ↔
      ∃ r, r ∈ exampleRows ∧ r.song = "Song2 (cover)" ∧
        exampleRows.countP
          (fun x => cleanSong x.song == cleanSong "Song2 (cover)") = 1 :=
  c7_rare_songs_iff exampleRows "Song2 (cover)"

/-- C8 (witness).  Instantiation at the example dataset. -/
theorem c8_venue_stats_spec_witness :
    ((get_venue_stats exampleRows).map VenueStat.venue).Perm
        (uniqueFirst (exampleRows.map Row.venue))
    ∧ ((get_venue_stats exampleRows).map VenueStat.venue).Nodup
    ∧ (∀ e, e ∈ get_venue_stats exampleRows →
        e.shows =
          (uniqueFirst ((exampleRows.filter (fun r => r.venue == e.venue)).map Row.date)).length
        ∧ e.total_songs = (exampleRows.filter (fun r => r.venue == e.venue)).length
        ∧ e.avg_songs_per_show = round1 ((e.total_songs : ℚ) / (e.shows : ℚ)))
    ∧ List.Pairwise (fun a b : VenueStat => b.shows ≤ a.shows)
        (get_venue_stats exampleRows) :=
  c8_venue_stats_spec exampleRows

/-- C9 (witness).  Instantiation at the example dataset and its first show
date. -/
theorem c9_show_setlist_spec_witness :
    List.Sublist (get_show_setlist exampleRows 20230101) (exampleRows.map Row.song)
    ∧ (get_show_setlist exampleRows 20230101).length =
        exampleRows.countP (fun r => r.date == 20230101)
    ∧ (∀ s, s ∈ get_show_setlist exampleRows 20230101 ↔
        ∃ r, r ∈ exampleRows ∧ r.date = 20230101 ∧ r.song = s)
    ∧ (get_show_setlist exampleRows 20230101 = [] ↔
        ∀ r ∈ exampleRows, r.date ≠ 20230101) :=
  c9_show_setlist_spec exampleRows 20230101

end ConcertAnalysis
